import Mathlib

/-!
Shallow embedding of the MAVLink connection and synchronization core of the
UAV-AI ground-station backend (`Mavlink_rx_handler.py` and the parameter-delta
helper of `JARVIS.py`), together with proofs settling the specification claims.

Python dicts are modelled as association lists with insert-in-place semantics
(later inserts of an existing key replace the value where it stands, new keys
append at the end, exactly as CPython dicts behave observably); numeric values
and timestamps are modelled as rationals.
-/

namespace UavAi

/-- Association-list insert with Python-dict semantics: replace in place if the
key is present, otherwise append at the end. -/
def alInsert {α β : Type} [DecidableEq α] (d : List (α × β)) (k : α) (v : β) :
    List (α × β) :=
  if d.any (fun p => p.1 = k) then
    d.map (fun p => if p.1 = k then (k, v) else p)
  else d ++ [(k, v)]

/-- Association-list lookup (`dict.get`). -/
def alLookup {α β : Type} [DecidableEq α] (d : List (α × β)) (k : α) : Option β :=
  (d.find? (fun p => p.1 = k)).map (fun p => p.2)

/-- Association-list erase (`del dict[k]`). -/
def alErase {α β : Type} [DecidableEq α] (d : List (α × β)) (k : α) :
    List (α × β) :=
  d.filter (fun p => ¬ p.1 = k)

/-- The key list of an association list. -/
def alKeys {α β : Type} (d : List (α × β)) : List α := d.map (fun p => p.1)

/-- A parameter table: Python `params_dict`, a dict from name to float value. -/
abbrev PDict := List (String × ℚ)

/-- Embedding of the mutable state of `MavlinkHandler.__init__`
(`src/Mavlink_rx_handler.py`).  Fields not used by any claim (socket handles,
log bookkeeping, latency history) are omitted; `mav_conn` is modelled as
`Option Bool` (absent, or present with its open/closed status). -/
structure MavlinkHandler where
  mav_conn : Option Bool
  params_dict : PDict
  param_done : Nat
  last_heartbeat : ℚ
  heartbeat_timeout_flag : Bool
  is_connected : Bool
  param_count : Nat
  param_progress : ℚ
  tx_mav_msg : List String
  command_ack_status : List (Nat × Nat)
  pkt_count : Nat
  byte_count : Nat
  rate_timestamp : ℚ
  pkt_rate : ℚ
  byte_rate : ℚ
  deriving DecidableEq

/-- The state `__init__` builds (construction time `t0` stands for the
`time.time()` recorded in `_rate_timestamp`). -/
def initHandler (t0 : ℚ) : MavlinkHandler :=
  { mav_conn := none
    params_dict := []
    param_done := 0
    last_heartbeat := 0
    heartbeat_timeout_flag := false
    is_connected := false
    param_count := 0
    param_progress := 0
    tx_mav_msg := []
    command_ack_status := []
    pkt_count := 0
    byte_count := 0
    rate_timestamp := t0
    pkt_rate := 0
    byte_rate := 0 }

/-- The fields of an incoming PARAM_VALUE message that
`_process_parameter` reads. -/
structure PMsg where
  param_id : String
  param_value : ℚ
  param_index : Nat
  param_count : Nat
  deriving DecidableEq

/-- Result of one `_process_parameter` call: the state afterwards, whether
`on_params_received` was invoked during the call, and whether the progress
computation raised `ZeroDivisionError`. -/
structure IngestOut where
  state : MavlinkHandler
  fired : Bool
  zero_div : Bool
  deriving DecidableEq

/-- Embedding of `MavlinkHandler._process_parameter`
(`src/Mavlink_rx_handler.py:222`): store `param_id → param_value`, record the
declared `param_count`, compute the progress percentage
`(param_index + 1) / param_count * 100` — which raises `ZeroDivisionError`
when `param_count == 0`, leaving the already-updated dict in place — and then
fire `on_params_received` whenever
`len(params_dict) >= param_count > 0` holds. -/
def _process_parameter (s : MavlinkHandler) (msg : PMsg) : IngestOut :=
  let d := alInsert s.params_dict msg.param_id msg.param_value
  let s1 := { s with params_dict := d, param_count := msg.param_count }
  if msg.param_count = 0 then
    { state := s1, fired := false, zero_div := true }
  else
    let s2 := { s1 with
      param_progress :=
        ((msg.param_index : ℚ) + 1) / (msg.param_count : ℚ) * 100 }
    { state := s2
      fired := decide (msg.param_count ≤ d.length) && decide (0 < msg.param_count)
      zero_div := false }

/-- Dispatch a whole sequence of PARAM_VALUE messages through
`_process_parameter`, collecting the per-message `on_params_received` flags. -/
def ingestAll (s : MavlinkHandler) : List PMsg → MavlinkHandler × List Bool
  | [] => (s, [])
  | m :: rest =>
      let o := _process_parameter s m
      let r := ingestAll o.state rest
      (r.1, o.fired :: r.2)

/-- Number of times `on_params_received` fired along a trace. -/
def fireCount (l : List Bool) : Nat := l.count true

/-- Embedding of `MavlinkHandler.update_parameter`
(`src/Mavlink_rx_handler.py:392`): bail out when not connected; `float(value)`
conversion failure (modelled by `none`) is caught and yields `False`;
otherwise a PARAM_SET frame is sent, `tx_mav_msg` records it, and `True` is
returned.  The local `params_dict` is never touched. -/
def update_parameter (s : MavlinkHandler) (param_name : String)
    (value : Option ℚ) : Bool × MavlinkHandler :=
  if ¬ s.is_connected then (false, s)
  else
    match value with
    | none => (false, s)
    | some _ =>
        (true, { s with tx_mav_msg := s.tx_mav_msg ++ ["PARAM_SET:" ++ param_name] })

/-- Embedding of `MavlinkHandler.get_parameters`
(`src/Mavlink_rx_handler.py:388`) at the value level: the current dict. -/
def get_parameters (s : MavlinkHandler) : PDict := s.params_dict

/-- Embedding of `MavlinkHandler.disconnect`
(`src/Mavlink_rx_handler.py:568`): clear `is_connected`, close the transport
when one exists (exceptions from `close` are swallowed).  Nothing else in the
state is altered. -/
def disconnect (s : MavlinkHandler) : MavlinkHandler :=
  let s1 := { s with is_connected := false }
  match s1.mav_conn with
  | some _ => { s1 with mav_conn := some false }
  | none => s1

/-- Whether a MAV_RESULT code is treated as success by
`send_mavlink_command_from_json` (`src/Mavlink_rx_handler.py:492`):
ACCEPTED (0), TEMPORARILY_REJECTED (1) and IN_PROGRESS (5). -/
def mavResultOk (r : Nat) : Bool := r = 0 || r = 1 || r = 5

/-- Embedding of the outcome logic of
`MavlinkHandler.send_mavlink_command_from_json`
(`src/Mavlink_rx_handler.py:433`): `False` when not connected or the command
name is unknown; otherwise the stale ACK entry is cleared, the command sent,
and the thread waits on the condition variable.  `ackDuringWait` is the ACK
result recorded for this command id before the 5 s timeout expires (`none`
when no matching ACK arrives): a recorded result in {0,1,5} yields `True`,
any other recorded result yields `False`, and timeout also yields `False`. -/
def send_mavlink_command_from_json (connected : Bool) (known : Bool)
    (ackDuringWait : Option Nat) : Bool :=
  if ¬ connected then false
  else if ¬ known then false
  else
    match ackDuringWait with
    | some r => mavResultOk r
    | none => false

/-- State of the command-ACK coordinator: the `command_ack_status` dict plus
the set of threads currently blocked in `command_ack_condition.wait`, each
tagged with the command id it waits for.  (The wait set is implicit in the
Python condition variable; it is made explicit here so that
`notify_all` — wake every waiter — is distinguishable from a single wakeup.) -/
structure AckCoordState where
  status : List (Nat × Nat)
  waiters : List (Nat × Nat)
  deriving DecidableEq

/-- Embedding of the COMMAND_ACK branch of `MavlinkHandler._process_message`
(`src/Mavlink_rx_handler.py:211`): under the condition variable's lock, record
`command_ack_status[command_id] = result` and `notify_all()`.  Returns the new
state and the ids of the threads woken (all current waiters — a broadcast). -/
def processCommandAck (s : AckCoordState) (command_id result : Nat) :
    AckCoordState × List Nat :=
  ({ s with status := alInsert s.status command_id result },
   s.waiters.map (fun w => w.1))

/-- Heartbeat-watchdog state: `last_heartbeat` and the timeout flag. -/
structure HbState where
  last_heartbeat : ℚ
  heartbeat_timeout_flag : Bool
  deriving DecidableEq

/-- One iteration of `MavlinkHandler._check_heartbeat_timeout`
(`src/Mavlink_rx_handler.py:289`) at wall-clock time `now`: when
`now - last_heartbeat > 5` and the flag is not yet set, warn (the returned
`Bool`) and set the flag; otherwise do nothing. -/
def hbPoll (s : HbState) (now : ℚ) : HbState × Bool :=
  if 5 < now - s.last_heartbeat then
    if s.heartbeat_timeout_flag then (s, false)
    else ({ s with heartbeat_timeout_flag := true }, true)
  else (s, false)

/-- The HEARTBEAT branch of `MavlinkHandler._process_message`
(`src/Mavlink_rx_handler.py:174`): refresh `last_heartbeat` and clear the
timeout flag. -/
def hbBeat (_s : HbState) (now : ℚ) : HbState :=
  { last_heartbeat := now, heartbeat_timeout_flag := false }

/-- Run a sequence of watchdog polls at the given times, counting how many of
them raised the "timeout detected" warning. -/
def hbPollRun (s : HbState) : List ℚ → HbState × Nat
  | [] => (s, 0)
  | t :: rest =>
      let o := hbPoll s t
      let r := hbPollRun o.1 rest
      (r.1, (if o.2 then 1 else 0) + r.2)

/-- Embedding of `MavlinkHandler.get_link_stats`
(`src/Mavlink_rx_handler.py:323`) at wall-clock time `now`: when less than
0.1 s elapsed since the last rate computation, return the cached rates and
touch nothing; otherwise recompute the rates, zero both counters and restart
the window.  (Python's `round(x, 1)` is dropped here and the exact quotient
kept: rounding of the returned value is irrelevant to the counter-reset
behaviour the claims are about, and the counters themselves are not
rounded.) -/
def get_link_stats (s : MavlinkHandler) (now : ℚ) :
    (ℚ × ℚ) × MavlinkHandler :=
  let elapsed := now - s.rate_timestamp
  if elapsed < 1/10 then ((s.pkt_rate, s.byte_rate), s)
  else
    let pr := (s.pkt_count : ℚ) / elapsed
    let br := (s.byte_count : ℚ) / elapsed
    ((pr, br),
     { s with pkt_rate := pr, byte_rate := br,
              pkt_count := 0, byte_count := 0, rate_timestamp := now })

/-- The packet/byte counting step of `MavlinkHandler._process_message`
(`src/Mavlink_rx_handler.py:155`): the dispatcher accumulates one packet and
its byte length into the rate counters. -/
def countMessage (s : MavlinkHandler) (nbytes : Nat) : MavlinkHandler :=
  { s with pkt_count := s.pkt_count + 1, byte_count := s.byte_count + nbytes }

/-- Object store modelling Python dict identity for `get_parameters`: the
handler's `params_dict` attribute is a reference (`params_ref`) into a heap of
dict objects, so that `dict.copy()` — which allocates a fresh object — is
distinguishable from returning an alias. -/
structure ParamHeap where
  objs : List PDict
  params_ref : Nat
  deriving DecidableEq

/-- Dereference a dict object. -/
def heapGet (h : ParamHeap) (r : Nat) : PDict := h.objs.getD r []

/-- Overwrite the dict object at `r`. -/
def heapSet (h : ParamHeap) (r : Nat) (d : PDict) : ParamHeap :=
  { h with objs := h.objs.set r d }

/-- In-place mutation of the dict object at `r` (what Python statements like
`d[k] = v` or `d.clear()` do to the object a reference points at). -/
def mutateObj (h : ParamHeap) (r : Nat) (f : PDict → PDict) : ParamHeap :=
  heapSet h r (f (heapGet h r))

/-- `MavlinkHandler.get_parameters` (`src/Mavlink_rx_handler.py:388`) in the
object-store model: `self.params_dict.copy()` allocates a fresh dict object
with the same contents and returns a reference to it. -/
def get_parameters_heap (h : ParamHeap) : Nat × ParamHeap :=
  (h.objs.length, { h with objs := h.objs ++ [heapGet h h.params_ref] })

/-- The dict write `self.params_dict[param_id] = param_value` performed by
`_process_parameter` (`src/Mavlink_rx_handler.py:226`) in the object-store
model: it mutates the internal dict object in place. -/
def ingestParamHeap (h : ParamHeap) (m : PMsg) : ParamHeap :=
  mutateObj h h.params_ref (fun d => alInsert d m.param_id m.param_value)

/-- A value slot in a parameter delta entry: a numeric parameter value, or one
of the two string sentinels `"<new>"` / `"<removed>"` used by
`_compute_param_delta`.  (Real parameter values are floats, so the sentinels
can never collide with them.) -/
inductive DVal : Type
  | num (q : ℚ)
  | newMark
  | removedMark
  deriving DecidableEq

/-- One delta entry: `{"old": ..., "new": ...}`. -/
structure DEntry where
  dold : DVal
  dnew : DVal
  deriving DecidableEq

/-- The changed-or-added loop of `JARVIS._compute_param_delta`
(`src/JARVIS.py:380`): one entry per key of `new_params` that is absent from
`old_params` (old slot `"<new>"`) or carries a different value there. -/
def changedEntries (old_params new_params : PDict) : List (String × DEntry) :=
  new_params.filterMap (fun p =>
    match alLookup old_params p.1 with
    | none => some (p.1, ⟨DVal.newMark, DVal.num p.2⟩)
    | some o => if o = p.2 then none else some (p.1, ⟨DVal.num o, DVal.num p.2⟩))

/-- The removed loop of `JARVIS._compute_param_delta` (`src/JARVIS.py:384`):
one entry per key of `old_params` missing from `new_params`
(new slot `"<removed>"`). -/
def removedEntries (old_params new_params : PDict) : List (String × DEntry) :=
  old_params.filterMap (fun p =>
    match alLookup new_params p.1 with
    | none => some (p.1, ⟨DVal.num p.2, DVal.removedMark⟩)
    | some _ => none)

/-- Embedding of `JARVIS._compute_param_delta` (`src/JARVIS.py:371`): `None`
when either dict is empty (falsy); otherwise the changed/added entries
followed by the removed entries; `None` again when no entry was produced. -/
def _compute_param_delta (old_params new_params : PDict) :
    Option (List (String × DEntry)) :=
  if old_params = [] then none
  else if new_params = [] then none
  else
    let delta := changedEntries old_params new_params ++
      removedEntries old_params new_params
    if delta = [] then none else some delta

/-- Modelled from the spec: one step of the spec's inverse-delta application
(no such function exists in the source; the claim defines it): a key whose
recorded old value is the `"<new>"` sentinel was added and is dropped from
the table, and any other key has its recorded old value restored (which also
re-adds keys that were removed). -/
def applyEntry (acc : PDict) (e : String × DEntry) : PDict :=
  match e.2.dold with
  | DVal.newMark => alErase acc e.1
  | DVal.num o => alInsert acc e.1 o
  | DVal.removedMark => acc

/-- Modelled from the spec: apply the inverse of each recorded delta entry to
a table; `None` deltas apply no change. -/
def applyInverseDelta (d : Option (List (String × DEntry))) (b : PDict) : PDict :=
  match d with
  | none => b
  | some entries => entries.foldl applyEntry b

/-- The table value the inverse application leaves at an entry's own key. -/
def entryResult (e : DEntry) : Option ℚ :=
  match e.dold with
  | DVal.newMark => none
  | DVal.num o => some o
  | DVal.removedMark => none

section AssocLemmas

variable {α β : Type} [DecidableEq α]

lemma any_key_eq (d : List (α × β)) (k : α) :
    (d.any (fun p => p.1 = k)) = true ↔ k ∈ alKeys d := by
  rw [List.any_eq_true]
  constructor
  · rintro ⟨p, hp, hpk⟩
    simp only [decide_eq_true_eq] at hpk
    exact List.mem_map.mpr ⟨p, hp, hpk⟩
  · intro hk
    obtain ⟨p, hp, hpk⟩ := List.mem_map.mp hk
    exact ⟨p, hp, by simp [hpk]⟩

lemma alKeys_alInsert (d : List (α × β)) (k : α) (v : β) :
    alKeys (alInsert d k v) =
      if k ∈ alKeys d then alKeys d else alKeys d ++ [k] := by
  unfold alInsert
  by_cases h : k ∈ alKeys d
  · rw [if_pos ((any_key_eq d k).mpr h), if_pos h]
    unfold alKeys
    rw [List.map_map]
    apply List.map_congr_left
    intro p _
    by_cases hp : p.1 = k <;> simp [hp]
  · rw [if_neg (fun hc => h ((any_key_eq d k).mp hc)), if_neg h]
    simp [alKeys]

lemma length_alInsert (d : List (α × β)) (k : α) (v : β) :
    (alInsert d k v).length =
      if k ∈ alKeys d then d.length else d.length + 1 := by
  unfold alInsert
  by_cases h : k ∈ alKeys d
  · rw [if_pos ((any_key_eq d k).mpr h), if_pos h, List.length_map]
  · rw [if_neg (fun hc => h ((any_key_eq d k).mp hc)), if_neg h]
    simp

lemma nodup_alKeys_alInsert (d : List (α × β)) (k : α) (v : β)
    (h : (alKeys d).Nodup) : (alKeys (alInsert d k v)).Nodup := by
  rw [alKeys_alInsert]
  by_cases hk : k ∈ alKeys d
  · rwa [if_pos hk]
  · rw [if_neg hk]
    simp [List.nodup_append, h, hk]

lemma find?_map_replace (d : List (α × β)) (k : α) (v : β) :
    ((d.map (fun p => if p.1 = k then (k, v) else p)).find?
        (fun p => p.1 = k)) =
      (d.find? (fun p => p.1 = k)).map (fun _ => (k, v)) := by
  induction d with
  | nil => simp
  | cons p rest ih =>
      by_cases hp : p.1 = k
      · simp [List.find?, hp]
      · simp only [List.map_cons, if_neg hp]
        rw [List.find?_cons_of_neg _ (by simp [hp]),
            List.find?_cons_of_neg _ (by simp [hp]), ih]

lemma find?_map_replace_ne (d : List (α × β)) {k k₀ : α} (v : β)
    (hne : k ≠ k₀) :
    ((d.map (fun p => if p.1 = k then (k, v) else p)).find?
        (fun p => p.1 = k₀)) =
      d.find? (fun p => p.1 = k₀) := by
  induction d with
  | nil => simp
  | cons p rest ih =>
      by_cases hp : p.1 = k
      · simp only [List.map_cons, if_pos hp]
        rw [List.find?_cons_of_neg _ (by simp [hne]),
            List.find?_cons_of_neg _ (by simp [hp, hne]), ih]
      · simp only [List.map_cons, if_neg hp]
        by_cases hq : p.1 = k₀
        · rw [List.find?_cons_of_pos _ (by simp [hq]),
              List.find?_cons_of_pos _ (by simp [hq])]
        · rw [List.find?_cons_of_neg _ (by simp [hq]),
              List.find?_cons_of_neg _ (by simp [hq]), ih]

lemma alLookup_alInsert_self (d : List (α × β)) (k : α) (v : β) :
    alLookup (alInsert d k v) k = some v := by
  unfold alInsert alLookup
  by_cases h : (d.any (fun p => p.1 = k)) = true
  · rw [if_pos h, find?_map_replace]
    rcases hf : d.find? (fun p => p.1 = k) with _ | p
    · exfalso
      rw [List.any_eq_true] at h
      obtain ⟨p, hp, hpk⟩ := h
      have := List.find?_eq_none.mp hf p hp
      simp_all
    · rw [hf]
      simp
  · rw [if_neg h, List.find?_append]
    have hnone : d.find? (fun p => p.1 = k) = none := by
      rw [List.find?_eq_none]
      intro p hp hpk
      exact h (List.any_eq_true.mpr ⟨p, hp, hpk⟩)
    simp [hnone, List.find?]

lemma alLookup_alInsert_ne (d : List (α × β)) {k k₀ : α} (v : β)
    (hne : k ≠ k₀) : alLookup (alInsert d k v) k₀ = alLookup d k₀ := by
  unfold alInsert alLookup
  by_cases h : (d.any (fun p => p.1 = k)) = true
  · rw [if_pos h, find?_map_replace_ne d v hne]
  · rw [if_neg h, List.find?_append]
    rcases hf : d.find? (fun p => p.1 = k₀) with _ | p
    · rw [hf]
      simp [List.find?, hne]
    · rw [hf]
      simp

lemma alLookup_alErase_self (d : List (α × β)) (k : α) :
    alLookup (alErase d k) k = none := by
  unfold alErase alLookup
  rw [Option.map_eq_none', List.find?_eq_none]
  intro p hp
  simp only [List.mem_filter] at hp
  simpa using hp.2

lemma alLookup_alErase_ne (d : List (α × β)) {k k₀ : α} (hne : k ≠ k₀) :
    alLookup (alErase d k) k₀ = alLookup d k₀ := by
  unfold alErase alLookup
  induction d with
  | nil => rfl
  | cons p rest ih =>
      by_cases hp : p.1 = k
      · rw [List.filter_cons_of_neg (by simp [hp]),
            List.find?_cons_of_neg _ (by simp [hp, hne]), ih]
      · by_cases hq : p.1 = k₀
        · rw [List.filter_cons_of_pos (by simp [hp]),
              List.find?_cons_of_pos _ (by simp [hq]),
              List.find?_cons_of_pos _ (by simp [hq])]
        · rw [List.filter_cons_of_pos (by simp [hp]),
              List.find?_cons_of_neg _ (by simp [hq]),
              List.find?_cons_of_neg _ (by simp [hq]), ih]

lemma alLookup_eq_some_mem {d : List (α × β)} {k : α} {v : β}
    (h : alLookup d k = some v) : (k, v) ∈ d := by
  unfold alLookup at h
  rcases hf : d.find? (fun p => p.1 = k) with _ | p
  · rw [hf] at h; simp at h
  · rw [hf] at h
    simp only [Option.map_some'] at h
    have hm := List.mem_of_find?_eq_some hf
    have hk := List.find?_some hf
    simp only [decide_eq_true_eq] at hk
    have : p = (k, v) := by
      rcases p with ⟨a, b⟩
      simp_all
    rwa [this] at hm

lemma mem_alLookup_of_nodup {d : List (α × β)} {k : α} {v : β}
    (hnd : (alKeys d).Nodup) (h : (k, v) ∈ d) : alLookup d k = some v := by
  induction d with
  | nil => simp at h
  | cons p rest ih =>
      have hkeys : alKeys (p :: rest) = p.1 :: alKeys rest := rfl
      rw [hkeys, List.nodup_cons] at hnd
      rcases List.mem_cons.mp h with h1 | h1
      · unfold alLookup
        rw [← h1]
        rw [List.find?_cons_of_pos _ (by simp)]
        simp
      · have hk : k ∈ alKeys rest := List.mem_map.mpr ⟨(k, v), h1, rfl⟩
        have hp : ¬ p.1 = k := fun hc => hnd.1 (hc ▸ hk)
        unfold alLookup
        rw [List.find?_cons_of_neg _ (by simp [hp])]
        exact ih hnd.2 h1

lemma alLookup_eq_none_iff (d : List (α × β)) (k : α) :
    alLookup d k = none ↔ k ∉ alKeys d := by
  unfold alLookup alKeys
  rw [Option.map_eq_none', List.find?_eq_none]
  constructor
  · intro hall hk
    obtain ⟨p, hp, hpk⟩ := List.mem_map.mp hk
    exact hall p hp (by simp [hpk])
  · intro hk p hp hpk
    simp only [decide_eq_true_eq] at hpk
    exact hk (List.mem_map.mpr ⟨p, hp, hpk⟩)

end AssocLemmas

/-- The parameter names announced by a list of PARAM_VALUE messages. -/
def msgNames (ms : List PMsg) : List String := ms.map (fun m => m.param_id)

/-- Number of distinct parameter names in a list of PARAM_VALUE messages. -/
def dcard (ms : List PMsg) : Nat := (msgNames ms).toFinset.card

section ParamEngineLemmas

lemma length_alInsert_card {α β : Type} [DecidableEq α] (d : List (α × β))
    (k : α) (v : β) (hnd : (alKeys d).Nodup) :
    (alInsert d k v).length = (insert k (alKeys d).toFinset).card := by
  rw [length_alInsert]
  by_cases h : k ∈ alKeys d
  · rw [if_pos h, Finset.insert_eq_self.mpr (List.mem_toFinset.mpr h),
        List.toFinset_card_of_nodup hnd]
    simp [alKeys]
  · rw [if_neg h,
        Finset.card_insert_of_not_mem (fun hc => h (List.mem_toFinset.mp hc)),
        List.toFinset_card_of_nodup hnd]
    simp [alKeys]

lemma alKeys_alInsert_toFinset {α β : Type} [DecidableEq α]
    (d : List (α × β)) (k : α) (v : β) :
    (alKeys (alInsert d k v)).toFinset = insert k (alKeys d).toFinset := by
  rw [alKeys_alInsert]
  by_cases h : k ∈ alKeys d
  · rw [if_pos h, Finset.insert_eq_self.mpr (List.mem_toFinset.mpr h)]
  · rw [if_neg h, List.toFinset_append, Finset.union_comm]
    simp [Finset.insert_eq]

lemma process_parameter_dict (s : MavlinkHandler) (m : PMsg) :
    (_process_parameter s m).state.params_dict =
      alInsert s.params_dict m.param_id m.param_value := by
  unfold _process_parameter
  split <;> rfl

lemma process_parameter_fired (s : MavlinkHandler) (m : PMsg)
    (h0 : m.param_count ≠ 0) :
    (_process_parameter s m).fired =
      decide (m.param_count ≤
        (alInsert s.params_dict m.param_id m.param_value).length) := by
  unfold _process_parameter
  rw [if_neg h0]
  simp [Nat.pos_of_ne_zero h0]

lemma process_parameter_zero_div (s : MavlinkHandler) (m : PMsg) :
    (_process_parameter s m).zero_div = decide (m.param_count = 0) := by
  unfold _process_parameter
  by_cases h0 : m.param_count = 0
  · rw [if_pos h0]
    simp [h0]
  · rw [if_neg h0]
    simp [h0]

lemma ingestAll_spec (N : Nat) (hN : 0 < N) :
    ∀ (ms : List PMsg) (s : MavlinkHandler),
      (∀ m ∈ ms, m.param_count = N) →
      (alKeys s.params_dict).Nodup →
      (alKeys (ingestAll s ms).1.params_dict).Nodup ∧
      ((alKeys (ingestAll s ms).1.params_dict).toFinset =
        (alKeys s.params_dict).toFinset ∪ (msgNames ms).toFinset) ∧
      (ingestAll s ms).1.params_dict.length =
        ((alKeys s.params_dict).toFinset ∪ (msgNames ms).toFinset).card ∧
      (ingestAll s ms).2.length = ms.length ∧
      (∀ i, i < ms.length →
        (ingestAll s ms).2.getD i false =
          decide (N ≤ ((alKeys s.params_dict).toFinset ∪
            (msgNames (ms.take (i + 1))).toFinset).card)) := by
  intro ms
  induction ms with
  | nil =>
      intro s _ hnd
      refine ⟨hnd, by simp [ingestAll, msgNames], ?_, by simp [ingestAll], ?_⟩
      · have h1 : s.params_dict.length = (alKeys s.params_dict).length := by
          simp [alKeys]
        rw [show (ingestAll s []).1 = s from rfl, h1,
          ← List.toFinset_card_of_nodup hnd]
        simp [msgNames]
      · intro i hi
        simp at hi
  | cons m rest ih =>
      intro s hc hnd
      have hm : m.param_count = N := hc m (List.mem_cons_self m rest)
      have h0 : m.param_count ≠ 0 := by omega
      have hdict := process_parameter_dict s m
      have hnd' : (alKeys (_process_parameter s m).state.params_dict).Nodup := by
        rw [hdict]; exact nodup_alKeys_alInsert _ _ _ hnd
      have hkeys' : (alKeys (_process_parameter s m).state.params_dict).toFinset
          = insert m.param_id (alKeys s.params_dict).toFinset := by
        rw [hdict]; exact alKeys_alInsert_toFinset _ _ _
      have hstep : ingestAll s (m :: rest) =
          ((ingestAll (_process_parameter s m).state rest).1,
           (_process_parameter s m).fired ::
             (ingestAll (_process_parameter s m).state rest).2) := rfl
      obtain ⟨ha, hb, hc', hd, he⟩ :=
        ih (_process_parameter s m).state
          (fun x hx => hc x (List.mem_cons_of_mem m hx)) hnd'
      have hunion : ∀ (X : Finset String),
          insert m.param_id (alKeys s.params_dict).toFinset ∪ X =
            (alKeys s.params_dict).toFinset ∪ insert m.param_id X := by
        intro X
        rw [Finset.insert_union, Finset.union_insert]
      have hnames : ∀ (l : List PMsg),
          (msgNames (m :: l)).toFinset =
            insert m.param_id (msgNames l).toFinset := by
        intro l
        simp [msgNames]
      refine ⟨?_, ?_, ?_, ?_, ?_⟩
      · rw [hstep]; exact ha
      · rw [hstep]
        rw [hb, hkeys', hnames rest, hunion]
      · rw [hstep]
        rw [hc', hkeys', hnames rest, hunion]
      · rw [hstep]
        simp [hd]
      · intro i hi
        rw [hstep]
        match i with
        | 0 =>
            show (_process_parameter s m).fired = _
            rw [process_parameter_fired s m h0, hm]
            have hlen := length_alInsert_card s.params_dict m.param_id
              m.param_value hnd
            rw [hlen]
            have : (msgNames ((m :: rest).take 1)).toFinset =
                insert m.param_id (∅ : Finset String) := by
              simp [msgNames]
            rw [this]
            rw [show (alKeys s.params_dict).toFinset ∪
                  insert m.param_id (∅ : Finset String) =
                insert m.param_id ((alKeys s.params_dict).toFinset ∪ ∅) from
              Finset.union_insert _ _ _]
            rw [Finset.union_empty]
        | Nat.succ j =>
            have hj : j < rest.length := by
              simpa using hi
            show (ingestAll (_process_parameter s m).state rest).2.getD j false = _
            rw [he j hj, hkeys']
            have htake : (m :: rest).take (j + 1 + 1) = m :: rest.take (j + 1) := rfl
            rw [htake, hnames (rest.take (j + 1)), hunion]

end ParamEngineLemmas

lemma dcard_nil : dcard [] = 0 := rfl

lemma dcard_take_succ_le (ms : List PMsg) (i : Nat) :
    dcard (ms.take (i + 1)) ≤ dcard (ms.take i) + 1 := by
  unfold dcard msgNames
  rw [List.take_succ, List.map_append, List.toFinset_append]
  refine le_trans (Finset.card_union_le _ _) ?_
  have h1 : ((ms[i]?.toList).map (fun m => m.param_id)).toFinset.card ≤ 1 := by
    cases h : ms[i]? <;> simp [h]
  omega

/-- A PARAM_VALUE message used in concrete evaluations: name "A", value 1,
index 0, declared total 1. -/
def pmA : PMsg := ⟨"A", 1, 0, 1⟩

/-- Name "A", value 1, index 0, declared total 2. -/
def pmA2 : PMsg := ⟨"A", 1, 0, 2⟩

/-- Name "B", value 2, index 1, declared total 2. -/
def pmB2 : PMsg := ⟨"B", 2, 1, 2⟩

/-- Claim C1, counterexample: with a declared total of N = 1, ingesting the
same parameter twice fires the completion notification twice — the engine has
no one-shot guard, so a duplicate (or any further message) arriving after the
table is complete re-fires `on_params_received`, refuting "exactly once per
connection session". -/
theorem C1_counterexample :
    fireCount (ingestAll (initHandler 0) [pmA, pmA]).2 = 2 := by decide

/-- Claim C1, amended: starting from a fresh session, for any sequence of
PARAM_VALUE messages all declaring total N > 0: (a) the completion
notification fires on exactly those ingests after which the table holds at
least N distinct names — hence it first fires at the moment the N-th distinct
name is ingested but fires again on every later ingest, duplicates included,
rather than exactly once; (b) duplicates do not double-count, the table ends
with one entry per distinct name; (c) at the first fire the table has exactly
N entries. -/
theorem C1_param_complete_amended (N : Nat) (ms : List PMsg) (t0 : ℚ)
    (hN : 0 < N) (hc : ∀ m ∈ ms, m.param_count = N) :
    (∀ i, i < ms.length →
      ((ingestAll (initHandler t0) ms).2.getD i false = true ↔
        N ≤ dcard (ms.take (i + 1)))) ∧
    (ingestAll (initHandler t0) ms).1.params_dict.length = dcard ms ∧
    (∀ i, i < ms.length →
      (ingestAll (initHandler t0) ms).2.getD i false = true →
      (∀ j, j < i → (ingestAll (initHandler t0) ms).2.getD j false = false) →
      dcard (ms.take (i + 1)) = N ∧
      (ingestAll (initHandler t0) (ms.take (i + 1))).1.params_dict.length = N) := by
  have hnd : (alKeys (initHandler t0).params_dict).Nodup := by
    simp [initHandler, alKeys]
  have hkeys0 : (alKeys (initHandler t0).params_dict).toFinset = ∅ := by
    simp [initHandler, alKeys]
  obtain ⟨_, _, hlen, _, hfire⟩ := ingestAll_spec N hN ms (initHandler t0) hc hnd
  have hiff : ∀ i, i < ms.length →
      ((ingestAll (initHandler t0) ms).2.getD i false = true ↔
        N ≤ dcard (ms.take (i + 1))) := by
    intro i hi
    rw [hfire i hi, hkeys0, Finset.empty_union]
    simp [dcard]
  refine ⟨hiff, ?_, ?_⟩
  · rw [hlen, hkeys0, Finset.empty_union]
    rfl
  · intro i hi hfir hprev
    have hge : N ≤ dcard (ms.take (i + 1)) := (hiff i hi).mp hfir
    have hlt : dcard (ms.take i) ≤ N - 1 := by
      rcases Nat.eq_zero_or_pos i with h0 | hpos
      · subst h0
        rw [List.take_zero, dcard_nil]
        omega
      · obtain ⟨j, rfl⟩ : ∃ j, i = j + 1 := ⟨i - 1, by omega⟩
        have hj := hprev j (by omega)
        have hiffj := hiff j (by omega)
        rw [hj] at hiffj
        simp at hiffj
        omega
    have hstep := dcard_take_succ_le ms i
    have heq : dcard (ms.take (i + 1)) = N := by omega
    refine ⟨heq, ?_⟩
    have hc' : ∀ m ∈ ms.take (i + 1), m.param_count = N :=
      fun m hm => hc m (List.take_subset _ _ hm)
    obtain ⟨_, _, hlen', _, _⟩ :=
      ingestAll_spec N hN (ms.take (i + 1)) (initHandler t0) hc' hnd
    rw [hlen', hkeys0, Finset.empty_union]
    exact heq

/-- Witness for the amended claim C1 at N = 2,
messages `A=1 (0 of 2)` then `B=2 (1 of 2)`. -/
theorem C1_param_complete_witness :
    (ingestAll (initHandler 0) [pmA2, pmB2]).1.params_dict.length =
      dcard [pmA2, pmB2] :=
  (C1_param_complete_amended 2 [pmA2, pmB2] 0 (by decide) (by decide)).2.1

/-- A PARAM_VALUE message with declared total 0, the failing input of claim
C2: name "X", value 1, index 0, `param_count = 0`. -/
def pmZero : PMsg := ⟨"X", 1, 0, 0⟩

/-- Claim C2: contrary to the claim, a PARAM_VALUE ingest whose declared
total is 0 raises `ZeroDivisionError` in the progress computation
`(param_index + 1) / param_count * 100` and never reports Complete (the
completion guard additionally requires `param_count > 0`), so ingest is not
total on such input — the exception propagates to `_message_loop`, whose
`finally` block then drops the connection. -/
theorem C2_zero_count_divzero :
    (_process_parameter (initHandler 0) pmZero).zero_div = true ∧
    (_process_parameter (initHandler 0) pmZero).fired = false := by
  exact ⟨rfl, rfl⟩

/-- Claim C7: `update_parameter` never touches the local parameter table in
any of its branches — the table changes only when `_process_parameter`
ingests the corresponding PARAM_VALUE echo, which stores
`param_id → param_value`. -/
theorem C7_update_parameter_frame :
    ∀ (s : MavlinkHandler) (param_name : String) (value : Option ℚ)
      (m : PMsg),
      (update_parameter s param_name value).2.params_dict = s.params_dict ∧
      (_process_parameter s m).state.params_dict =
        alInsert s.params_dict m.param_id m.param_value := by
  intro s param_name value m
  refine ⟨?_, process_parameter_dict s m⟩
  unfold update_parameter
  by_cases h : s.is_connected
  · simp only [h, not_true, if_neg, ite_false]
    cases value <;> simp
  · simp [h]

/-- Claim C3, counterexample: a DENIED ACK (result 2) and the absence of any
ACK within the timeout produce the same `False` return value of
`send_mavlink_command_from_json` — the caller cannot distinguish the TimedOut
outcome from a rejection, refuting the claimed distinctness. -/
theorem C3_counterexample :
    send_mavlink_command_from_json true true (some 2) = false ∧
    send_mavlink_command_from_json true true none = false :=
  ⟨rfl, rfl⟩

/-- Claim C3, amended: an ACK with result ACCEPTED (0), TEMPORARILY_REJECTED
(1) or IN_PROGRESS (5) yields the success outcome `True`; DENIED (2),
UNSUPPORTED (3), FAILED (4) or CANCELLED (6) yields `False`; and no ACK
within the timeout also yields `False` — the same value as a rejection, so
the timeout outcome is not distinguishable by the caller. -/
theorem C3_ack_mapping_amended :
    (∀ r : Nat, (r = 0 ∨ r = 1 ∨ r = 5) →
      send_mavlink_command_from_json true true (some r) = true) ∧
    (∀ r : Nat, (r = 2 ∨ r = 3 ∨ r = 4 ∨ r = 6) →
      send_mavlink_command_from_json true true (some r) = false) ∧
    send_mavlink_command_from_json true true none = false := by
  refine ⟨?_, ?_, rfl⟩
  · rintro r (rfl | rfl | rfl) <;> rfl
  · rintro r (rfl | rfl | rfl | rfl) <;> rfl

/-- Witness for the amended claim C3 at results ACCEPTED and DENIED. -/
theorem C3_ack_mapping_witness :
    send_mavlink_command_from_json true true (some 0) = true ∧
    send_mavlink_command_from_json true true (some 4) = false :=
  ⟨C3_ack_mapping_amended.1 0 (Or.inl rfl),
   C3_ack_mapping_amended.2.1 4 (Or.inr (Or.inr (Or.inl rfl)))⟩

/-- A connected handler holding one downloaded parameter and one resolved
command-ACK entry, used to evaluate `disconnect`. -/
def connectedHandler : MavlinkHandler :=
  { initHandler 0 with
      is_connected := true
      mav_conn := some true
      params_dict := [("A", 1)]
      command_ack_status := [(400, 0)] }

/-- Claim C4, counterexample: `disconnect` does not discard the per-session
state — after disconnecting a handler that holds a parameter entry and an
ACK-status entry, both survive, so a reconnect does not start from a clean
state. -/
theorem C4_counterexample :
    (disconnect connectedHandler).params_dict = [("A", 1)] ∧
    (disconnect connectedHandler).command_ack_status = [(400, 0)] ∧
    (disconnect connectedHandler).params_dict ≠ [] := by decide

/-- Claim C4, amended: `disconnect` marks the connection not connected and
closes the transport, and it is idempotent — calling it again is a no-op
that raises no error — but it retains (does not discard) the parameter table
and the pending-command entries. -/
theorem C4_disconnect_amended :
    ∀ s : MavlinkHandler,
      (disconnect s).is_connected = false ∧
      (disconnect s).params_dict = s.params_dict ∧
      (disconnect s).command_ack_status = s.command_ack_status ∧
      disconnect (disconnect s) = disconnect s := by
  intro s
  unfold disconnect
  cases h : s.mav_conn <;> simp [h]

/-- Claim C5: resolving a COMMAND_ACK records the result in
`command_ack_status` and `notify_all` wakes every thread currently blocked on
the ack condition variable (a broadcast, not a single wakeup); in particular
any two threads waiting on the same command id are both woken and both read
the same recorded outcome from the shared map. -/
theorem C5_ack_broadcast :
    ∀ (s : AckCoordState) (command_id result t₁ t₂ : Nat),
      (t₁, command_id) ∈ s.waiters → (t₂, command_id) ∈ s.waiters →
      t₁ ∈ (processCommandAck s command_id result).2 ∧
      t₂ ∈ (processCommandAck s command_id result).2 ∧
      alLookup (processCommandAck s command_id result).1.status command_id =
        some result := by
  intro s command_id result t₁ t₂ h₁ h₂
  exact ⟨List.mem_map.mpr ⟨(t₁, command_id), h₁, rfl⟩,
         List.mem_map.mpr ⟨(t₂, command_id), h₂, rfl⟩,
         alLookup_alInsert_self _ _ _⟩

/-- Witness for claim C5: two threads (7 and 8) both waiting on command id
400 are both woken, and both read result 0. -/
theorem C5_ack_broadcast_witness :
    7 ∈ (processCommandAck ⟨[], [(7, 400), (8, 400)]⟩ 400 0).2 ∧
    8 ∈ (processCommandAck ⟨[], [(7, 400), (8, 400)]⟩ 400 0).2 ∧
    alLookup (processCommandAck ⟨[], [(7, 400), (8, 400)]⟩ 400 0).1.status 400 =
      some 0 :=
  C5_ack_broadcast ⟨[], [(7, 400), (8, 400)]⟩ 400 0 7 8 (by decide) (by decide)

lemma hbPoll_cases (s : HbState) (t : ℚ) :
    (s.heartbeat_timeout_flag = true ∧ hbPoll s t = (s, false)) ∨
    (s.heartbeat_timeout_flag = false ∧
      hbPoll s t = ({ s with heartbeat_timeout_flag := true }, true)) ∨
    (hbPoll s t = (s, false) ∧ ¬ 5 < t - s.last_heartbeat) := by
  unfold hbPoll
  by_cases h5 : 5 < t - s.last_heartbeat
  · by_cases hf : s.heartbeat_timeout_flag = true
    · exact Or.inl ⟨hf, by rw [if_pos h5, if_pos hf]⟩
    · exact Or.inr (Or.inl ⟨by simpa using hf, by rw [if_pos h5, if_neg hf]⟩)
  · exact Or.inr (Or.inr ⟨by rw [if_neg h5], h5⟩)

lemma hbPollRun_bound : ∀ (ts : List ℚ) (s : HbState),
    (hbPollRun s ts).2 ≤ if s.heartbeat_timeout_flag then 0 else 1 := by
  intro ts
  induction ts with
  | nil =>
      intro s
      have h0 : (hbPollRun s []).2 = 0 := rfl
      rw [h0]
      split <;> omega
  | cons t rest ih =>
      intro s
      have hrun : (hbPollRun s (t :: rest)).2 =
          (if (hbPoll s t).2 then 1 else 0) +
            (hbPollRun (hbPoll s t).1 rest).2 := rfl
      rw [hrun]
      rcases hbPoll_cases s t with ⟨hf, he⟩ | ⟨hf, he⟩ | ⟨he, _⟩
      · rw [he]
        have hr := ih s
        rw [hf] at hr ⊢
        simpa using hr
      · rw [he]
        have hr := ih { s with heartbeat_timeout_flag := true }
        simp only [if_pos] at hr
        rw [hf]
        simp at hr ⊢
        omega
      · rw [he]
        have hr := ih s
        simpa using hr

/-- Claim C6: along any run of watchdog polls with no intervening heartbeat
(an outage), the timeout warning fires at most once — the flag is
edge-triggered on the transition into `now - last_heartbeat > 5`, not
re-raised each second — and processing the next HEARTBEAT message resets the
flag to false. -/
theorem C6_heartbeat_edge_trigger :
    ∀ (s : HbState) (ts : List ℚ) (now : ℚ),
      (hbPollRun s ts).2 ≤ 1 ∧
      (hbBeat s now).heartbeat_timeout_flag = false := by
  intro s ts now
  refine ⟨?_, rfl⟩
  have := hbPollRun_bound ts s
  split at this <;> omega

/-- A handler mid-window: three packets and 96 bytes accumulated, cached
rates from the previous window, last rate computation at t = 100. -/
def statsHandler : MavlinkHandler :=
  { initHandler 100 with
      pkt_count := 3
      byte_count := 96
      pkt_rate := 7
      byte_rate := 224 }

/-- Claim C9, counterexample: a stats call arriving 0.05 s after the previous
rate computation does not reset the accumulated counters — the `elapsed <
0.1` guard returns the cached rates and leaves the three accumulated packets
in place, refuting "every call resets the counters". -/
theorem C9_counterexample :
    (get_link_stats statsHandler (100 + 1/20)).2.pkt_count = 3 ∧
    (get_link_stats statsHandler (100 + 1/20)).2.byte_count = 96 := by
  have h : (100 + 1/20 : ℚ) - statsHandler.rate_timestamp < 1/10 := by
    show (100 + 1/20 : ℚ) - 100 < 1/10
    norm_num
  simp only [get_link_stats]
  rw [if_pos h]
  exact ⟨rfl, rfl⟩

/-- Claim C9, amended: a stats call at least 0.1 s after the previous rate
computation resets both counters and restarts the window at the call time;
a call within 0.1 s returns the cached rates and resets nothing (and in the
back-to-back case the counters are already zero from the first call, so the
window it reports on did start from zero counts). -/
theorem C9_link_stats_amended :
    ∀ (s : MavlinkHandler) (now : ℚ),
      (1/10 ≤ now - s.rate_timestamp →
        (get_link_stats s now).2.pkt_count = 0 ∧
        (get_link_stats s now).2.byte_count = 0 ∧
        (get_link_stats s now).2.rate_timestamp = now) ∧
      (now - s.rate_timestamp < 1/10 →
        (get_link_stats s now).2 = s ∧
        (get_link_stats s now).1 = (s.pkt_rate, s.byte_rate)) := by
  intro s now
  constructor
  · intro h
    unfold get_link_stats
    rw [if_neg (not_lt.mpr h)]
    exact ⟨rfl, rfl, rfl⟩
  · intro h
    unfold get_link_stats
    rw [if_pos h]
    exact ⟨rfl, rfl⟩

/-- Witness for the amended claim C9: a call one second after the window
start resets both counters and restarts the window. -/
theorem C9_link_stats_witness :
    (get_link_stats statsHandler 101).2.pkt_count = 0 ∧
    (get_link_stats statsHandler 101).2.byte_count = 0 ∧
    (get_link_stats statsHandler 101).2.rate_timestamp = 101 :=
  (C9_link_stats_amended statsHandler 101).1
    (by show (1 : ℚ)/10 ≤ 101 - 100; norm_num)

lemma getD_set_ne {γ : Type} (l : List γ) (i j : Nat) (a d : γ)
    (h : i ≠ j) : (l.set i a).getD j d = l.getD j d := by
  induction l generalizing i j with
  | nil => simp
  | cons x xs ih =>
      cases i with
      | zero =>
          cases j with
          | zero => omega
          | succ j' => simp
      | succ i' =>
          cases j with
          | zero => simp
          | succ j' =>
              show (xs.set i' a).getD j' d = xs.getD j' d
              exact ih i' j' (by omega)

lemma getD_append_lt {γ : Type} (l l' : List γ) (i : Nat) (d : γ)
    (h : i < l.length) : (l ++ l').getD i d = l.getD i d := by
  induction l generalizing i with
  | nil => simp at h
  | cons x xs ih =>
      cases i with
      | zero => simp
      | succ i' =>
          simp only [List.cons_append, List.getD_cons_succ]
          exact ih i' (by simpa using h)

lemma getD_append_length {γ : Type} (l : List γ) (x d : γ) :
    (l ++ [x]).getD l.length d = x := by
  induction l with
  | nil => simp
  | cons y ys ih =>
      show (ys ++ [x]).getD ys.length d = x
      exact ih

/-- Claim C10: `get_parameters` returns a fresh copy of the parameter table:
the copy holds the table's current contents; mutating the returned object in
any way leaves the internal table untouched; and a later PARAM_VALUE ingest
(which mutates the internal dict object in place) does not alter the
previously returned copy. -/
theorem C10_get_parameters_copy :
    ∀ (h : ParamHeap) (f : PDict → PDict) (m : PMsg),
      h.params_ref < h.objs.length →
      (heapGet (get_parameters_heap h).2 (get_parameters_heap h).1 =
        heapGet h h.params_ref) ∧
      (heapGet (mutateObj (get_parameters_heap h).2 (get_parameters_heap h).1 f)
          h.params_ref = heapGet h h.params_ref) ∧
      (heapGet (ingestParamHeap (get_parameters_heap h).2 m)
          (get_parameters_heap h).1 = heapGet h h.params_ref) := by
  intro h f m hlt
  have hcopy : heapGet (get_parameters_heap h).2 (get_parameters_heap h).1 =
      heapGet h h.params_ref := by
    show (h.objs ++ [heapGet h h.params_ref]).getD h.objs.length [] =
      heapGet h h.params_ref
    exact getD_append_length _ _ _
  refine ⟨hcopy, ?_, ?_⟩
  · unfold mutateObj heapSet heapGet
    show ((h.objs ++ [heapGet h h.params_ref]).set h.objs.length _).getD
        h.params_ref [] = _
    rw [getD_set_ne _ _ _ _ _ (by omega),
        getD_append_lt _ _ _ _ hlt]
  · unfold ingestParamHeap mutateObj heapSet heapGet
    show ((h.objs ++ [heapGet h h.params_ref]).set h.params_ref _).getD
        h.objs.length [] = _
    rw [getD_set_ne _ _ _ _ _ (by omega)]
    exact getD_append_length _ _ _

/-- A one-object heap: the internal table holds `A = 1`. -/
def heap0 : ParamHeap := ⟨[[("A", 1)]], 0⟩

/-- Witness for claim C10: on a concrete heap, the returned copy matches the
table, clearing the copy leaves the table intact, and ingesting a parameter
afterwards leaves the copy intact. -/
theorem C10_get_parameters_copy_witness :
    (heapGet (get_parameters_heap heap0).2 (get_parameters_heap heap0).1 =
      heapGet heap0 heap0.params_ref) ∧
    (heapGet (mutateObj (get_parameters_heap heap0).2
        (get_parameters_heap heap0).1 (fun _ => []))
      heap0.params_ref = heapGet heap0 heap0.params_ref) ∧
    (heapGet (ingestParamHeap (get_parameters_heap heap0).2 pmA)
        (get_parameters_heap heap0).1 = heapGet heap0 heap0.params_ref) :=
  C10_get_parameters_copy heap0 (fun _ => []) pmA (by decide)

section DeltaLemmas

lemma applyEntry_lookup_ne (b : PDict) (e : String × DEntry) (k : String)
    (h : e.1 ≠ k) : alLookup (applyEntry b e) k = alLookup b k := by
  rcases e with ⟨ke, dold, dnew⟩
  cases dold with
  | newMark => exact alLookup_alErase_ne b h
  | num o => exact alLookup_alInsert_ne b o h
  | removedMark => rfl

lemma foldl_applyEntry_not_mem :
    ∀ (entries : List (String × DEntry)) (b : PDict) (k : String),
      (∀ x ∈ entries, x.1 ≠ k) →
      alLookup (entries.foldl applyEntry b) k = alLookup b k := by
  intro entries
  induction entries with
  | nil => intro b k _; rfl
  | cons e0 rest ih =>
      intro b k h
      rw [List.foldl_cons,
          ih (applyEntry b e0) k (fun x hx => h x (List.mem_cons_of_mem _ hx)),
          applyEntry_lookup_ne b e0 k (h e0 (List.mem_cons_self _ _))]

lemma foldl_applyEntry_mem :
    ∀ (entries : List (String × DEntry)) (b : PDict) (k : String) (e : DEntry),
      (alKeys entries).Nodup → (k, e) ∈ entries →
      e.dold ≠ DVal.removedMark →
      alLookup (entries.foldl applyEntry b) k = entryResult e := by
  intro entries
  induction entries with
  | nil =>
      intro b k e _ hmem _
      simp at hmem
  | cons e0 rest ih =>
      intro b k e hnd hmem hdold
      have hkeys : alKeys (e0 :: rest) = e0.1 :: alKeys rest := rfl
      rw [hkeys, List.nodup_cons] at hnd
      rw [List.foldl_cons]
      rcases List.mem_cons.mp hmem with h1 | h1
      · subst h1
        have hkn : ∀ x ∈ rest, x.1 ≠ k := by
          intro x hx hxk
          exact hnd.1 (List.mem_map.mpr ⟨x, hx, hxk⟩)
        rw [foldl_applyEntry_not_mem rest _ k hkn]
        cases hd : e.dold with
        | newMark =>
            show alLookup (applyEntry b ((k, e))) k = entryResult e
            unfold applyEntry entryResult
            rw [hd]
            exact alLookup_alErase_self b k
        | num o =>
            show alLookup (applyEntry b ((k, e))) k = entryResult e
            unfold applyEntry entryResult
            rw [hd]
            exact alLookup_alInsert_self b k o
        | removedMark => exact absurd hd hdold
      · have hk : k ∈ alKeys rest := List.mem_map.mpr ⟨(k, e), h1, rfl⟩
        have hne : e0.1 ≠ k := fun hc => hnd.1 (hc ▸ hk)
        exact ih (applyEntry b e0) k e hnd.2 h1 hdold

lemma alKeys_filterMap_sublist {α β γ : Type} (l : List (α × β))
    (f : α × β → Option (α × γ)) (hf : ∀ p q, f p = some q → q.1 = p.1) :
    (alKeys (l.filterMap f)).Sublist (alKeys l) := by
  induction l with
  | nil => simp [alKeys]
  | cons p rest ih =>
      cases hfp : f p with
      | none =>
          rw [List.filterMap_cons_none hfp]
          exact ih.trans (List.Sublist.cons p.1 (List.Sublist.refl _))
      | some q =>
          rw [List.filterMap_cons_some hfp]
          have hq : q.1 = p.1 := hf p q hfp
          show List.Sublist (q.1 :: alKeys (rest.filterMap f))
            (p.1 :: alKeys rest)
          rw [hq]
          exact List.Sublist.cons₂ _ ih

lemma changed_mem_new {A B : PDict} {k : String} {v : ℚ}
    (hmem : (k, v) ∈ B) (hA : alLookup A k = none) :
    (k, ⟨DVal.newMark, DVal.num v⟩) ∈ changedEntries A B := by
  unfold changedEntries
  exact List.mem_filterMap.mpr ⟨(k, v), hmem, by simp [hA]⟩

lemma changed_mem_diff {A B : PDict} {k : String} {v o : ℚ}
    (hmem : (k, v) ∈ B) (hA : alLookup A k = some o) (hne : o ≠ v) :
    (k, ⟨DVal.num o, DVal.num v⟩) ∈ changedEntries A B := by
  unfold changedEntries
  exact List.mem_filterMap.mpr ⟨(k, v), hmem, by simp [hA, hne]⟩

lemma removed_mem {A B : PDict} {k : String} {v : ℚ}
    (hmem : (k, v) ∈ A) (hB : alLookup B k = none) :
    (k, ⟨DVal.num v, DVal.removedMark⟩) ∈ removedEntries A B := by
  unfold removedEntries
  exact List.mem_filterMap.mpr ⟨(k, v), hmem, by simp [hB]⟩

lemma changed_key_cases {A B : PDict} (hndB : (alKeys B).Nodup)
    {e : String × DEntry} (h : e ∈ changedEntries A B) :
    ∃ v, alLookup B e.1 = some v ∧ alLookup A e.1 ≠ some v := by
  unfold changedEntries at h
  obtain ⟨p, hp, hfp⟩ := List.mem_filterMap.mp h
  have hBp : alLookup B p.1 = some p.2 := by
    refine mem_alLookup_of_nodup hndB ?_
    rcases p with ⟨a, b⟩
    exact hp
  cases hA : alLookup A p.1 with
  | none =>
      simp only [hA, Option.some.injEq] at hfp
      refine ⟨p.2, ?_, ?_⟩
      · rw [← hfp]
        exact hBp
      · rw [← hfp]
        show alLookup A p.1 ≠ some p.2
        simp [hA]
  | some o =>
      simp only [hA] at hfp
      by_cases ho : o = p.2
      · rw [if_pos ho] at hfp
        simp at hfp
      · rw [if_neg ho] at hfp
        simp only [Option.some.injEq] at hfp
        refine ⟨p.2, ?_, ?_⟩
        · rw [← hfp]
          exact hBp
        · rw [← hfp]
          show alLookup A p.1 ≠ some p.2
          rw [hA]
          intro hc
          exact ho (by injection hc)

lemma removed_key_cases {A B : PDict}
    {e : String × DEntry} (h : e ∈ removedEntries A B) :
    alLookup B e.1 = none ∧ alLookup A e.1 ≠ none := by
  unfold removedEntries at h
  obtain ⟨p, hp, hfp⟩ := List.mem_filterMap.mp h
  cases hB : alLookup B p.1 with
  | none =>
      simp only [hB, Option.some.injEq] at hfp
      constructor
      · rw [← hfp]
        exact hB
      · rw [← hfp]
        show alLookup A p.1 ≠ none
        intro hc
        rw [alLookup_eq_none_iff] at hc
        exact hc (List.mem_map.mpr ⟨p, hp, rfl⟩)
  | some w =>
      simp only [hB] at hfp
      exact Option.noConfusion hfp

lemma delta_keys_nodup {A B : PDict}
    (hndA : (alKeys A).Nodup) (hndB : (alKeys B).Nodup) :
    (alKeys (changedEntries A B ++ removedEntries A B)).Nodup := by
  have hfC : ∀ (p : String × ℚ) (q : String × DEntry),
      (match alLookup A p.1 with
       | none => some (p.1, ⟨DVal.newMark, DVal.num p.2⟩)
       | some o => if o = p.2 then none
           else some (p.1, ⟨DVal.num o, DVal.num p.2⟩)) = some q →
      q.1 = p.1 := by
    intro p q hf
    cases hA : alLookup A p.1 with
    | none =>
        simp only [hA, Option.some.injEq] at hf
        rw [← hf]
    | some o =>
        simp only [hA] at hf
        by_cases ho : o = p.2
        · rw [if_pos ho] at hf
          simp at hf
        · rw [if_neg ho] at hf
          simp only [Option.some.injEq] at hf
          rw [← hf]
  have hfR : ∀ (p : String × ℚ) (q : String × DEntry),
      (match alLookup B p.1 with
       | none => some (p.1, ⟨DVal.num p.2, DVal.removedMark⟩)
       | some _ => none) = some q →
      q.1 = p.1 := by
    intro p q hf
    cases hB : alLookup B p.1 with
    | none =>
        simp only [hB, Option.some.injEq] at hf
        rw [← hf]
    | some w =>
        simp only [hB] at hf
        exact Option.noConfusion hf
  have hC : (alKeys (changedEntries A B)).Sublist (alKeys B) :=
    alKeys_filterMap_sublist B _ hfC
  have hR : (alKeys (removedEntries A B)).Sublist (alKeys A) :=
    alKeys_filterMap_sublist A _ hfR
  have hnodC : (alKeys (changedEntries A B)).Nodup := List.Nodup.sublist hC hndB
  have hnodR : (alKeys (removedEntries A B)).Nodup := List.Nodup.sublist hR hndA
  have hdisj : (alKeys (changedEntries A B)).Disjoint
      (alKeys (removedEntries A B)) := by
    intro k hkC hkR
    obtain ⟨eC, heC, hkC'⟩ := List.mem_map.mp hkC
    obtain ⟨eR, heR, hkR'⟩ := List.mem_map.mp hkR
    obtain ⟨v, hBv, _⟩ := changed_key_cases hndB heC
    obtain ⟨hBnone, _⟩ := removed_key_cases heR
    rw [hkC'] at hBv
    rw [hkR'] at hBnone
    rw [hBnone] at hBv
    exact Option.noConfusion hBv
  have hsplit : alKeys (changedEntries A B ++ removedEntries A B) =
      alKeys (changedEntries A B) ++ alKeys (removedEntries A B) := by
    unfold alKeys
    rw [List.map_append]
  rw [hsplit, List.nodup_append]
  exact ⟨hnodC, hnodR, hdisj⟩

lemma delta_nil_lookup_eq {A B : PDict}
    (hC : changedEntries A B = []) (hR : removedEntries A B = [])
    (k : String) : alLookup B k = alLookup A k := by
  have hBall : ∀ p ∈ B, alLookup A p.1 = some p.2 := by
    intro p hp
    have hnone := List.filterMap_eq_nil_iff.mp hC p hp
    cases hA : alLookup A p.1 with
    | none =>
        simp only [hA] at hnone
        exact Option.noConfusion hnone
    | some o =>
        simp only [hA] at hnone
        by_cases ho : o = p.2
        · rw [ho]
        · rw [if_neg ho] at hnone
          simp at hnone
  have hAall : ∀ p ∈ A, alLookup B p.1 ≠ none := by
    intro p hp hB
    have hnone := List.filterMap_eq_nil_iff.mp hR p hp
    simp only [hB] at hnone
    exact Option.noConfusion hnone
  cases hBk : alLookup B k with
  | some v =>
      have hm := alLookup_eq_some_mem hBk
      have := hBall (k, v) hm
      exact this.symm
  | none =>
      cases hAk : alLookup A k with
      | none => rfl
      | some o =>
          have hm := alLookup_eq_some_mem hAk
          exact absurd hBk (hAall (k, o) hm)

end DeltaLemmas

/-- Claim C8, counterexample: the round-trip property does not hold for all
tables — with A empty and B = {X: 1}, `_compute_param_delta` returns `None`
(the "first call" guard), recording nothing for the added key X, so applying
the inverse deltas to B leaves B unchanged and does not reproduce A. -/
theorem C8_counterexample :
    _compute_param_delta [] [("X", 1)] = none ∧
    alLookup (applyInverseDelta (_compute_param_delta [] [("X", 1)])
        [("X", 1)]) "X" ≠ alLookup ([] : PDict) "X" := by
  constructor
  · rfl
  · intro hc
    simp [applyInverseDelta, _compute_param_delta, alLookup, List.find?] at hc

/-- Claim C8, amended: for nonempty tables A and B (with well-formed,
duplicate-free key lists, as Python dicts guarantee), the delta of (A, B)
records an (old, new) pair for each added, changed and removed key such that
applying the inverse deltas to B — dropping keys recorded as added and
restoring each recorded old value, which re-adds removed keys — reproduces A
exactly (pointwise on every key); when either table is empty the function
instead returns `None` and nothing is recorded, so the round trip holds only
in the nonempty case. -/
theorem C8_delta_roundtrip_amended (A B : PDict)
    (hA : A ≠ []) (hB : B ≠ [])
    (hndA : (alKeys A).Nodup) (hndB : (alKeys B).Nodup) :
    ∀ k, alLookup (applyInverseDelta (_compute_param_delta A B) B) k =
      alLookup A k := by
  intro k
  simp only [_compute_param_delta]
  rw [if_neg hA, if_neg hB]
  by_cases hδ : changedEntries A B ++ removedEntries A B = []
  · rw [if_pos hδ]
    show alLookup B k = alLookup A k
    obtain ⟨hC, hR⟩ := List.append_eq_nil.mp hδ
    exact delta_nil_lookup_eq hC hR k
  · rw [if_neg hδ]
    show alLookup ((changedEntries A B ++ removedEntries A B).foldl
      applyEntry B) k = alLookup A k
    have hnd := delta_keys_nodup hndA hndB
    cases hBk : alLookup B k with
    | some v =>
        cases hAk : alLookup A k with
        | some o =>
            by_cases ho : o = v
            · rw [foldl_applyEntry_not_mem _ _ _ ?hni, hBk, ho]
              case hni =>
                intro e he hek
                rcases List.mem_append.mp he with hc | hr
                · obtain ⟨v', hBv', hAv'⟩ := changed_key_cases hndB hc
                  rw [hek, hBk] at hBv'
                  injection hBv' with hv'
                  exact hAv' (by rw [hek, hAk, ho, hv'])
                · obtain ⟨hBnone, _⟩ := removed_key_cases hr
                  rw [hek, hBk] at hBnone
                  exact Option.noConfusion hBnone
            · have hm := changed_mem_diff (alLookup_eq_some_mem hBk) hAk ho
              rw [foldl_applyEntry_mem _ _ _ _ hnd
                (List.mem_append_left _ hm)
                (fun hx => DVal.noConfusion hx)]
              rfl
        | none =>
            have hm := changed_mem_new (alLookup_eq_some_mem hBk) hAk
            rw [foldl_applyEntry_mem _ _ _ _ hnd
              (List.mem_append_left _ hm)
              (fun hx => DVal.noConfusion hx)]
            rfl
    | none =>
        cases hAk : alLookup A k with
        | some o =>
            have hm := removed_mem (alLookup_eq_some_mem hAk) hBk
            rw [foldl_applyEntry_mem _ _ _ _ hnd
              (List.mem_append_right _ hm)
              (fun hx => DVal.noConfusion hx)]
            rfl
        | none =>
            rw [foldl_applyEntry_not_mem _ _ _ ?hni2, hBk]
            case hni2 =>
              intro e he hek
              rcases List.mem_append.mp he with hc | hr
              · obtain ⟨v', hBv', _⟩ := changed_key_cases hndB hc
                rw [hek, hBk] at hBv'
                exact Option.noConfusion hBv'
              · obtain ⟨_, hAne⟩ := removed_key_cases hr
                exact hAne (by rw [hek, hAk])

/-- Witness for the amended claim C8: A = {A: 1}, B = {A: 2}; the delta
records ("A", old 1, new 2), and the inverse application restores A. -/
theorem C8_delta_roundtrip_witness :
    alLookup (applyInverseDelta (_compute_param_delta [("A", 1)] [("A", 2)])
      [("A", 2)]) "A" = alLookup [("A", 1)] "A" :=
  C8_delta_roundtrip_amended [("A", 1)] [("A", 2)] (by decide) (by decide)
    (by decide) (by decide) "A"

end UavAi
